import Mathlib

/-!
Shallow embedding of `src/engine/src/player/input/folder.rs` (FFplayoutX).

Pure data and state types mirror the Rust structures. The external
collaborators (filesystem walk, metadata probing, filter building, the
clock, shuffle entropy) are passed in as explicit function parameters, and
the stateful methods of `FolderSource` become explicit state-passing
functions on `ChannelState`. Machine integers (`usize`) are modelled as
`Nat`; none of the arithmetic in the source can overflow observably, since
indices stay below the catalog length.
-/

/-- Modelled from the spec: the `Media` entity lives in `player/utils`,
which is not under `src/`. Spec section 3 describes one playable entry:
a source identifier (path), a position index, an optional scheduled start
timestamp, optional technical metadata and an optional filter descriptor
(the latter payloads are opaque to this core and modelled as strings). -/
structure Media where
  index : Option Nat := none
  source : String := ""
  probe : Option String := none
  filters : Option String := none
  begin : Option Nat := none
  deriving DecidableEq

/-- Modelled from the spec: `Media::new(index, source, do_probe)` from
`player/utils` constructs an entry for the given path carrying the given
index; every call site in `folder.rs` passes `do_probe = false`, so no
probing happens at construction. -/
def Media.new (index : Nat) (source : String) : Media :=
  { index := some index, source := source }

/-- Modelled from the spec: `Media::add_probe` asks the probing
collaborator for technical metadata (spec sections 4.3 step 4, 6 and 7);
on failure the entry is left unchanged and the error is handed back to the
caller, who decides whether to log it. -/
def Media.add_probe (oracle : String → Except String String) (m : Media) :
    Media × Except String Unit :=
  match oracle m.source with
  | Except.ok p => ({ m with probe := some p }, Except.ok ())
  | Except.error e => (m, Except.error e)

/-- Modelled from the spec: `Media::add_filter` attaches the filter
descriptor produced by the filter-chain collaborator (spec section 6). -/
def Media.add_filter (descriptor : String) (m : Media) : Media :=
  { m with filters := some descriptor }

/-- Mirrors the `config.general` fields read by `folder.rs`. -/
structure GeneralConfig where
  channel_id : Nat
  id : Nat
  generate : Option (List String)

/-- Mirrors the `config.storage` fields read by `folder.rs`. -/
structure StorageConfig where
  paths : List String
  shuffle : Bool
  filler_path : String

/-- Mirrors the `config.channel` fields read by `folder.rs`. -/
structure ChannelConfig where
  storage : String
  timezone : String

/-- Mirrors the parts of `PlayoutConfig` read by `folder.rs`. -/
structure PlayoutConfig where
  general : GeneralConfig
  storage : StorageConfig
  channel : ChannelConfig

/-- External collaborators of the core (spec section 6), passed explicitly:
the filesystem predicates and the recursive walk (`async_walkdir`, a stream
of `Ok`/`Err` results, here the path strings it yields), the extension
allow-list check, the probing collaborator, the filter-chain collaborator,
the clock `time_in_seconds(timezone)` and the entropy-driven shuffle
(`SliceRandom::shuffle` seeded by `StdRng::from_entropy`). -/
structure Collab where
  is_dir : String → Bool
  is_file : String → Bool
  walk : String → List (Except String String)
  include_file_extension : String → Bool
  probe : String → Except String String
  filter_of : Media → String
  time_in_seconds : String → Nat
  rng_shuffle : List Media → List Media

/-- Log events emitted by `folder.rs` that the claims talk about (error
lines and the "Shuffle files" info line; debug lines are omitted). -/
inductive LogEvent where
  | pathNotExists (path : String)
  | noPlayable (paths : List String)
  | shuffleInfo
  | probeError (e : String)
  deriving DecidableEq

/-- Stable insertion of `a` into `l`: `a` is placed before the first
element it is `le`-related to, hence before later tied elements. -/
def orderedInsert (le : α → α → Bool) (a : α) : List α → List α
  | [] => [a]
  | b :: l => if le a b then a :: b :: l else b :: orderedInsert le a l

/-- Models Rust's stable `Vec::sort_by` through the comparator's induced
"comparing does not return `Greater`" relation `le`: for a total preorder
the output of a stable sort is uniquely determined by the input order and
`le`, so stable insertion sort computes the same list as Rust's stable
merge sort. -/
def sort_by (le : α → α → Bool) : List α → List α
  | [] => []
  | a :: l => orderedInsert le a (sort_by le l)

/-- Lexicographic "less or equal" on key sequences, keys compared as pairs
of naturals (first component major). -/
def keyLe (key : α → Nat × Nat) : List α → List α → Bool
  | [], _ => true
  | _ :: _, [] => false
  | a :: xs, b :: ys =>
    if key a = key b then keyLe key xs ys
    else decide ((key a).1 < (key b).1 ∨ ((key a).1 = (key b).1 ∧ (key a).2 < (key b).2))

/-- Byte order on strings: Rust's `str::cmp` compares UTF-8 bytes
lexicographically, which coincides with code-point order on the decoded
characters; `lexLe a b` says that comparison of `a` and `b` does not
return `Greater`. -/
def lexLe (a b : List Char) : Bool :=
  keyLe (fun c => (c.toNat, 0)) a b

/-- Modelled from the spec: a token of the numeric-aware natural
comparison provided by the external `lexical_sort` crate — a maximal
embedded digit run taken by numeric value, or a single (lowercased)
character (spec glossary, "Natural sort"). -/
inductive NatToken where
  | num (n : Nat)
  | ch (c : Char)
  deriving DecidableEq

/-- Splits a character list into natural-comparison tokens, grouping
maximal digit runs into their numeric value and lowercasing the other
characters. -/
def tokenize (cs : List Char) : List NatToken :=
  (cs.foldl
    (fun acc c =>
      if c.isDigit then
        match acc with
        | NatToken.num n :: rest => NatToken.num (n * 10 + (c.toNat - 48)) :: rest
        | _ => NatToken.num (c.toNat - 48) :: acc
      else NatToken.ch c.toLower :: acc)
    []).reverse

/-- Sort key of a token: digit runs order before other characters and
among themselves by numeric value; characters order by code point. -/
def NatToken.key : NatToken → Nat × Nat
  | NatToken.num n => (0, n)
  | NatToken.ch c => (1, c.toNat)

/-- Modelled from the spec: the comparison of `natural_lexical_cmp` from
the `lexical_sort` crate on the ASCII inputs the claims use — embedded
digit runs compare as numbers, other characters case-insensitively
(spec section 4.2: "treats embedded numeric runs numerically").
`natural_le a b` says the comparison does not return `Greater`. -/
def natural_le (a b : String) : Bool :=
  keyLe NatToken.key (tokenize a.data) (tokenize b.data)

/-- The reindex loops of `folder.rs` (lines 74-78, 103-105, 113-115 and
203-205): assign `index = Some(position)` in catalog order, starting at
`i`. -/
def reindexFrom (i : Nat) : List Media → List Media
  | [] => []
  | m :: rest => { m with index := some i } :: reindexFrom (i + 1) rest

/-- Reindexing from position 0, as every call site does. -/
def reindex (l : List Media) : List Media := reindexFrom 0 l

/-- The `while let Some(Ok(entry)) = entries.next().await` loops (lines
51-56 and 180-193): consume walk results while they are `Ok`, stopping at
the first `Err` — so a root whose walk fails immediately (missing or not a
directory) contributes nothing. -/
def okEntries : List (Except String String) → List String
  | [] => []
  | Except.ok e :: rest => e :: okEntries rest
  | Except.error _ :: _ => []

/-- Paths kept by the walk loops: regular files whose extension is in the
allow-list. -/
def qualifying (ext : Collab) (path : String) : List String :=
  (okEntries (ext.walk path)).filter fun p => ext.is_file p && ext.include_file_extension p

/-- The shared channel state touched by `folder.rs`: the manager's
`current_list` (`Mutex<Vec<Media>>`) and `current_index` (`AtomicUsize`).
The sequential operations on it are modelled as explicit state passing. -/
structure ChannelState where
  current_list : List Media
  current_index : Nat
  deriving DecidableEq

/-- The primary-catalog comparator `|d1, d2| d1.source.cmp(&d2.source)`
(lines 71 and 111) as its induced not-`Greater` relation. -/
def leSource (d1 d2 : Media) : Bool := lexLe d1.source.data d2.source.data

/-- The filler-catalog comparator
`|d1, d2| natural_lexical_cmp(&d1.source, &d2.source)` (line 200) as its
induced not-`Greater` relation. -/
def leNatural (d1 d2 : Media) : Bool := natural_le d1.source d2.source

/-- Lines 32-36: the roots to enumerate — `config.storage.paths` when a
generation run over several paths is requested, otherwise the channel's
single storage root. -/
def path_list_of (config : PlayoutConfig) : List String :=
  if !config.storage.paths.isEmpty && config.general.generate.isSome then
    config.storage.paths
  else [config.channel.storage]

/-- Lines 26-86, `FolderSource::new`: build the primary catalog — walk
every root collecting qualifying files, report a root that is not a
directory, report an overall empty result, shuffle or sort, reassign
contiguous indices, and install the list into the channel state. Returns
the updated state and the emitted log events; the cursor is not touched. -/
def FolderSource.new (config : PlayoutConfig) (ext : Collab) (σ : ChannelState) :
    ChannelState × List LogEvent :=
  let path_list := path_list_of config
  let walked := path_list.foldl
    (fun acc path =>
      let logs := if ext.is_dir path then acc.2 else acc.2 ++ [LogEvent.pathNotExists path]
      (acc.1 ++ (qualifying ext path).map fun p => Media.new 0 p, logs))
    ([], [])
  let media_list := walked.1
  let logs := if media_list.isEmpty then walked.2 ++ [LogEvent.noPlayable path_list] else walked.2
  let ordered :=
    if config.storage.shuffle then (ext.rng_shuffle media_list, logs ++ [LogEvent.shuffleInfo])
    else (sort_by leSource media_list, logs)
  ({ σ with current_list := reindex ordered.1 }, ordered.2)

/-- Lines 88-95, `FolderSource::from_list`: install the given list
verbatim into the channel state; the cursor is left untouched. -/
def FolderSource.from_list (σ : ChannelState) (list : List Media) : ChannelState :=
  { σ with current_list := list }

/-- Lines 97-106, `FolderSource::shuffle`: under the list lock, reshuffle
the catalog with fresh entropy and reassign contiguous indices. -/
def FolderSource.shuffle (ext : Collab) (σ : ChannelState) : ChannelState :=
  { σ with current_list := reindex (ext.rng_shuffle σ.current_list) }

/-- Lines 108-116, `FolderSource::sort`: under the list lock, re-sort the
catalog by source and reassign contiguous indices. -/
def FolderSource.sort (σ : ChannelState) : ChannelState :=
  { σ with current_list := reindex (sort_by leSource σ.current_list) }

/-- Lines 130-134 and 155-159: per-serve enrichment of the cloned node —
best-effort probe (a failure is discarded), the filter descriptor, and the
scheduled begin timestamp from the channel's time zone. -/
def enrich (config : PlayoutConfig) (ext : Collab) (m : Media) : Media :=
  let node := (m.add_probe ext.probe).1
  let node := node.add_filter (ext.filter_of node)
  { node with begin := some (ext.time_in_seconds config.channel.timezone) }

/-- Lines 121-164, `FolderSource::next`, as one sequential step on the
channel state: serve the entry at the cursor and advance, or at exhaustion
regenerate (reshuffle or re-sort, with reindex) and serve the new head,
resetting the cursor to 1 — returning `none` when the regenerated catalog
is empty (in which case the cursor store on line 160 is skipped). -/
def FolderSource.next (config : PlayoutConfig) (ext : Collab) (σ : ChannelState) :
    Option Media × ChannelState :=
  if h : σ.current_index < σ.current_list.length then
    let node := σ.current_list.get ⟨σ.current_index, h⟩
    (some (enrich config ext node), { σ with current_index := σ.current_index + 1 })
  else
    let σ' := if config.storage.shuffle then FolderSource.shuffle ext σ else FolderSource.sort σ
    match σ'.current_list.head? with
    | none => (none, σ')
    | some m => (some (enrich config ext m), { σ' with current_index := 1 })

/-- The per-entry build loop of `fill_filler_list` (lines 180-193):
construct `Media::new(index, path, false)` for each qualifying path with a
running index and, when `eager` holds (no external cache handle was
supplied), probe it immediately, logging probe errors. -/
def buildFiller (ext : Collab) (eager : Bool) (i : Nat) :
    List String → List Media × List LogEvent
  | [] => ([], [])
  | p :: rest =>
    let m := Media.new i p
    let probed :=
      if eager then
        match m.add_probe ext.probe with
        | (m', Except.ok _) => (m', ([] : List LogEvent))
        | (m', Except.error e) => (m', [LogEvent.probeError e])
      else (m, [])
    let built := buildFiller ext eager (i + 1) rest
    (probed.1 :: built.1, probed.2 ++ built.2)

/-- Lines 167-227, `fill_filler_list`: build the filler catalog from the
configured filler root (directory, single file, or neither). Returns the
built list, the cache contents after the call (`none` when no cache handle
was supplied, otherwise the handle's contents), and the emitted log
events. -/
def fill_filler_list (config : PlayoutConfig) (ext : Collab)
    (fillers : Option (List Media)) :
    List Media × Option (List Media) × List LogEvent :=
  let filler_path := config.storage.filler_path
  if ext.is_dir filler_path then
    let built := buildFiller ext fillers.isNone 0 (qualifying ext filler_path)
    let ordered :=
      if config.storage.shuffle then ext.rng_shuffle built.1 else sort_by leNatural built.1
    let filler_list := reindex ordered
    (filler_list, (match fillers with | some _ => some filler_list | none => none), built.2)
  else if ext.is_file filler_path then
    let m := Media.new 0 filler_path
    let probed :=
      if fillers.isNone then
        match m.add_probe ext.probe with
        | (m', Except.ok _) => (m', ([] : List LogEvent))
        | (m', Except.error e) => (m', [LogEvent.probeError e])
      else (m, [])
    let filler_list := [probed.1]
    (filler_list, (match fillers with | some _ => some filler_list | none => none), probed.2)
  else ([], fillers, [])

/-- Channel state after `i` sequential `next()` calls. -/
def stateAfter (config : PlayoutConfig) (ext : Collab) (σ0 : ChannelState) : Nat → ChannelState
  | 0 => σ0
  | i + 1 => (FolderSource.next config ext (stateAfter config ext σ0 i)).2

/-- Item returned by the `i`-th (0-based) sequential `next()` call. -/
def outAt (config : PlayoutConfig) (ext : Collab) (σ0 : ChannelState) (i : Nat) : Option Media :=
  (FolderSource.next config ext (stateAfter config ext σ0 i)).1

/-- The `i`-th sequential `next()` call observes exhaustion, that is, it
takes the regeneration branch. -/
def regenAt (config : PlayoutConfig) (ext : Collab) (σ0 : ChannelState) (i : Nat) : Prop :=
  (stateAfter config ext σ0 i).current_list.length ≤ (stateAfter config ext σ0 i).current_index

/-- Program points of one `next()` call, named after the shared-state
access they perform next (line numbers from `folder.rs`): the atomic
cursor load of line 125, the locked length read of line 126, the second
atomic cursor load of line 128, the locked indexed read of line 129, the
`fetch_add` of line 135; on the regeneration path, the reorder lock
section entered from line 142 or 148, the locked head read of line 151 and
the cursor store of line 160. -/
inductive PC where
  | loadIdx1 | lockLen | loadIdx2 | readItem | fetchAdd
  | regenReorder | regenHead | regenStore | finished
  deriving DecidableEq

/-- Thread-local registers of one caller running `next()`: `a` holds the
cursor value read on line 125, `i` the one re-read on line 128. -/
structure CallerSt where
  pc : PC := PC.loadIdx1
  a : Nat := 0
  i : Nat := 0
  deriving DecidableEq

/-- Shared channel state as seen by concurrent callers: the atomic cursor,
the catalog length (stable across reorders of the same list), the cursor
positions served so far, and whether an out-of-range indexed read — a Rust
panic on line 129 — occurred. -/
structure SharedSt where
  current_index : Nat
  listLen : Nat
  served : List Nat := []
  panicked : Bool := false
  deriving DecidableEq

/-- One atomic micro-step of a caller inside `next()`: each separate
atomic load, atomic add, or mutex-guarded section of the source is one
step. The enrichment between lines 129 and 135 touches no shared state and
is elided. The reorder step models the single lock section of
`shuffle`/`sort` (length preserved, contents abstracted to cursor
positions), the head read and the cursor store are the further separate
lock/atomic accesses of lines 151 and 160. -/
def stepCaller (g : SharedSt) (t : CallerSt) : SharedSt × CallerSt :=
  match t.pc with
  | PC.loadIdx1 => (g, { t with a := g.current_index, pc := PC.lockLen })
  | PC.lockLen =>
      (g, { t with pc := if t.a < g.listLen then PC.loadIdx2 else PC.regenReorder })
  | PC.loadIdx2 => (g, { t with i := g.current_index, pc := PC.readItem })
  | PC.readItem =>
      if t.i < g.listLen then
        ({ g with served := g.served ++ [t.i] }, { t with pc := PC.fetchAdd })
      else ({ g with panicked := true }, { t with pc := PC.finished })
  | PC.fetchAdd => ({ g with current_index := g.current_index + 1 }, { t with pc := PC.finished })
  | PC.regenReorder => (g, { t with pc := PC.regenHead })
  | PC.regenHead =>
      if g.listLen = 0 then (g, { t with pc := PC.finished })
      else ({ g with served := g.served ++ [0] }, { t with pc := PC.regenStore })
  | PC.regenStore => ({ g with current_index := 1 }, { t with pc := PC.finished })
  | PC.finished => (g, t)

/-- Two concurrent callers of `next()` over one shared channel state. -/
structure TwoCallers where
  shared : SharedSt
  c0 : CallerSt
  c1 : CallerSt
  deriving DecidableEq

/-- Run one micro-step of caller 0 (`false`) or caller 1 (`true`). -/
def stepTwo (m : TwoCallers) (who : Bool) : TwoCallers :=
  if who then
    let r := stepCaller m.shared m.c1
    { m with shared := r.1, c1 := r.2 }
  else
    let r := stepCaller m.shared m.c0
    { m with shared := r.1, c0 := r.2 }

/-- Run a schedule — an interleaving of the two callers' micro-steps. -/
def runSched (m : TwoCallers) : List Bool → TwoCallers
  | [] => m
  | w :: ws => runSched (stepTwo m w) ws

/-- Initial shared state for the race scenario of the concurrency claim:
a catalog of stable length 2, cursor 0, both callers about to run one
`next()` each. -/
def raceInit : TwoCallers :=
  { shared := { current_index := 0, listLen := 2 }, c0 := {}, c1 := {} }

/-- The sequential baseline: caller 0 runs its whole call, then caller 1
runs its whole call. -/
def seqSched : List Bool :=
  [false, false, false, false, false, true, true, true, true, true]

/-- A racy interleaving: caller 0 runs through its second cursor load
(line 128), then caller 1 runs its entire call, then caller 0 finishes. -/
def racySched : List Bool :=
  [false, false, false, true, true, true, true, true, false, false]

/-- A concrete configuration used by the witnesses: no generation run, no
shuffle. -/
def cfgW : PlayoutConfig :=
  { general := { channel_id := 1, id := 1, generate := none },
    storage := { paths := [], shuffle := false, filler_path := "/filler" },
    channel := { storage := "/media", timezone := "UTC" } }

/-- A concrete collaborator assignment used by the witnesses: every path
is a file, walks yield nothing, probing succeeds, shuffling is the
identity permutation. -/
def extW : Collab :=
  { is_dir := fun _ => false, is_file := fun _ => true,
    walk := fun _ => [], include_file_extension := fun _ => true,
    probe := fun _ => Except.ok "meta", filter_of := fun _ => "anull",
    time_in_seconds := fun _ => 42, rng_shuffle := fun xs => xs }

/-- A collaborator assignment whose filesystem has no directories and no
files, used by witnesses that exercise the missing-root branches. -/
def extNone : Collab := { extW with is_file := fun _ => false }

/-- A concrete configuration with a generation run over two roots, the
first of which does not exist. -/
def cfg5 : PlayoutConfig :=
  { general := { channel_id := 1, id := 1, generate := some ["2024-01-01"] },
    storage := { paths := ["/missing", "/good"], shuffle := false, filler_path := "/filler" },
    channel := { storage := "/media", timezone := "UTC" } }

/-- A concrete collaborator whose filesystem holds the directory "/good"
with one playable file; walking any other root fails immediately, as
`read_dir` does on a missing path. -/
def ext5 : Collab :=
  { is_dir := fun p => p == "/good", is_file := fun _ => true,
    walk := fun p =>
      if p == "/good" then [Except.ok "/good/a.mp4"] else [Except.error "NotFound"],
    include_file_extension := fun _ => true,
    probe := fun _ => Except.ok "meta", filter_of := fun _ => "anull",
    time_in_seconds := fun _ => 0, rng_shuffle := fun xs => xs }

theorem reindexFrom_length (i : Nat) (l : List Media) :
    (reindexFrom i l).length = l.length := by
  induction l generalizing i with
  | nil => rfl
  | cons m rest ih => simp [reindexFrom, ih]

theorem get_reindexFrom (l : List Media) (i j : Nat)
    (hj : j < (reindexFrom i l).length) :
    ((reindexFrom i l).get ⟨j, hj⟩).index = some (i + j) := by
  induction l generalizing i j with
  | nil => simp [reindexFrom] at hj
  | cons m rest ih =>
    cases j with
    | zero => rfl
    | succ j =>
      have hj' : j < (reindexFrom (i + 1) rest).length := by
        simpa [reindexFrom] using Nat.lt_of_succ_lt_succ (by simpa [reindexFrom] using hj)
      have := ih (i + 1) j hj'
      simpa [reindexFrom, Nat.add_assoc, Nat.add_comm, Nat.add_left_comm] using this

theorem map_index_reindexFrom (i : Nat) (l : List Media) :
    (reindexFrom i l).map Media.index = (List.range' i l.length).map some := by
  induction l generalizing i with
  | nil => rfl
  | cons m rest ih =>
    show some i :: (reindexFrom (i + 1) rest).map Media.index
        = some i :: (List.range' (i + 1) rest.length).map some
    rw [ih]

theorem map_index_reindex_self (l : List Media) :
    (reindex l).map Media.index = (List.range (reindex l).length).map some := by
  rw [reindex, map_index_reindexFrom, reindexFrom_length, List.range_eq_range']

theorem map_source_reindexFrom (i : Nat) (l : List Media) :
    (reindexFrom i l).map Media.source = l.map Media.source := by
  induction l generalizing i with
  | nil => rfl
  | cons m rest ih => simp [reindexFrom, ih]

theorem mem_reindexFrom (x : Media) (i : Nat) (l : List Media)
    (hx : x ∈ reindexFrom i l) :
    ∃ y ∈ l, x.probe = y.probe ∧ x.source = y.source := by
  induction l generalizing i with
  | nil => simp [reindexFrom] at hx
  | cons m rest ih =>
    simp only [reindexFrom, List.mem_cons] at hx
    rcases hx with h | h
    · exact ⟨m, List.mem_cons_self m rest, by rw [h], by rw [h]⟩
    · obtain ⟨y, hy, h1, h2⟩ := ih (i + 1) h
      exact ⟨y, List.mem_cons_of_mem m hy, h1, h2⟩

theorem orderedInsert_length (le : α → α → Bool) (a : α) (l : List α) :
    (orderedInsert le a l).length = l.length + 1 := by
  induction l with
  | nil => rfl
  | cons b l ih =>
    by_cases h : le a b = true
    · simp [orderedInsert, h]
    · simp [orderedInsert, h, ih]

theorem sort_by_length (le : α → α → Bool) (l : List α) :
    (sort_by le l).length = l.length := by
  induction l with
  | nil => rfl
  | cons a l ih => simp [sort_by, orderedInsert_length, ih]

theorem mem_orderedInsert (le : α → α → Bool) (a x : α) (l : List α) :
    x ∈ orderedInsert le a l ↔ x = a ∨ x ∈ l := by
  induction l with
  | nil => simp [orderedInsert]
  | cons b l ih =>
    by_cases h : le a b = true
    · simp only [orderedInsert, h, if_true, List.mem_cons]
    · have hf : le a b = false := by simpa using h
      simp only [orderedInsert, hf, Bool.false_eq_true, if_false, List.mem_cons, ih]
      tauto

theorem mem_sort_by (le : α → α → Bool) (x : α) (l : List α) :
    x ∈ sort_by le l ↔ x ∈ l := by
  induction l with
  | nil => simp [sort_by]
  | cons a l ih => simp [sort_by, mem_orderedInsert, ih, List.mem_cons]

theorem add_probe_index (oracle : String → Except String String) (m : Media) :
    ((m.add_probe oracle).1).index = m.index := by
  unfold Media.add_probe
  cases oracle m.source <;> rfl

theorem add_probe_source (oracle : String → Except String String) (m : Media) :
    ((m.add_probe oracle).1).source = m.source := by
  unfold Media.add_probe
  cases oracle m.source <;> rfl

theorem add_probe_probe (oracle : String → Except String String) (m : Media)
    (hm : m.probe = none) :
    ((m.add_probe oracle).1).probe = (oracle m.source).toOption := by
  unfold Media.add_probe
  cases oracle m.source <;> simp [Except.toOption, hm]

theorem enrich_index (config : PlayoutConfig) (ext : Collab) (m : Media) :
    (enrich config ext m).index = m.index := by
  simp [enrich, Media.add_filter, add_probe_index]

/-- C1: the claim fails on the code. On a catalog of stable length 2 with
cursor 0, two concurrent callers each complete one `next()` call (combined
T = 2) without any regeneration, yet the exhibited interleaving serves the
position multiset {0, 0} — position 1 is skipped — while a single caller
issuing the same 2 calls sequentially serves {0, 1}. The cursor load of
line 125, the locked length read of line 126 and the second cursor load of
line 128 are separate atomic/lock operations, not one critical section, so
both callers read cursor position 0. -/
theorem next_race_duplicates_position :
    (runSched raceInit seqSched).shared.served = [0, 1] ∧
    (runSched raceInit racySched).shared.served = [0, 0] ∧
    (runSched raceInit racySched).c0.pc = PC.finished ∧
    (runSched raceInit racySched).c1.pc = PC.finished ∧
    (runSched raceInit racySched).shared.panicked = false ∧
    Multiset.ofList (runSched raceInit racySched).shared.served
      ≠ Multiset.ofList (runSched raceInit seqSched).shared.served := by
  decide

/-- C3: immediately after every catalog build (`FolderSource::new` for the
primary catalog, `fill_filler_list` for the filler catalog) and after
every regeneration (`FolderSource::shuffle` or `FolderSource::sort`), the
catalog's `Media` indices are exactly `some 0, …, some (n-1)`, assigned in
catalog order. -/
theorem catalog_indices_contiguous (config : PlayoutConfig) (ext : Collab)
    (σ : ChannelState) (fillers : Option (List Media)) :
    ((FolderSource.new config ext σ).1.current_list.map Media.index
        = (List.range (FolderSource.new config ext σ).1.current_list.length).map some) ∧
    ((FolderSource.shuffle ext σ).current_list.map Media.index
        = (List.range (FolderSource.shuffle ext σ).current_list.length).map some) ∧
    ((FolderSource.sort σ).current_list.map Media.index
        = (List.range (FolderSource.sort σ).current_list.length).map some) ∧
    ((fill_filler_list config ext fillers).1.map Media.index
        = (List.range (fill_filler_list config ext fillers).1.length).map some) := by
  refine ⟨?_, ?_, ?_, ?_⟩
  · simp only [FolderSource.new]
    exact map_index_reindex_self _
  · simp only [FolderSource.shuffle]
    exact map_index_reindex_self _
  · simp only [FolderSource.sort]
    exact map_index_reindex_self _
  · by_cases hdir : ext.is_dir config.storage.filler_path = true
    · simp only [fill_filler_list, hdir, if_true]
      exact map_index_reindex_self _
    · have hdir' : ext.is_dir config.storage.filler_path = false := by simpa using hdir
      by_cases hfile : ext.is_file config.storage.filler_path = true
      · simp only [fill_filler_list, hdir', Bool.false_eq_true, if_false, hfile, if_true]
        by_cases hcache : fillers.isNone = true
        · simp only [hcache, if_true]
          cases hp : ext.probe config.storage.filler_path with
          | ok v =>
            simp only [Media.add_probe, Media.new, hp]
            rfl
          | error e =>
            simp only [Media.add_probe, Media.new, hp]
            rfl
        · simp only [hcache, Bool.false_eq_true, if_false]
          rfl
      · have hfile' : ext.is_file config.storage.filler_path = false := by simpa using hfile
        simp [fill_filler_list, hdir', hfile']

/-- C4: when `next()` observes exhaustion and the catalog still has length
0 after the regeneration reorder, it returns `None` instead of looping,
crashing or raising; in particular the first `next()` on a catalog built
from zero qualifying files returns `None`. -/
theorem next_empty_catalog_returns_none (config : PlayoutConfig) (ext : Collab)
    (σ : ChannelState) (hempty : σ.current_list = [])
    (hsh : ext.rng_shuffle [] = []) :
    (FolderSource.next config ext σ).1 = none := by
  have hnot : ¬ σ.current_index < σ.current_list.length := by
    rw [hempty]
    simp
  by_cases hshuf : config.storage.shuffle = true
  · simp [FolderSource.next, hnot, hshuf, FolderSource.shuffle, hempty, hsh, reindex,
      reindexFrom]
  · have hs : config.storage.shuffle = false := by simpa using hshuf
    simp [FolderSource.next, hnot, hs, FolderSource.sort, hempty, sort_by, reindex,
      reindexFrom]

/-- C4 witness: the first `next()` on an empty catalog returns the empty
signal. -/
theorem next_empty_catalog_returns_none_witness :
    (FolderSource.next cfgW extW { current_list := [], current_index := 0 }).1 = none :=
  next_empty_catalog_returns_none cfgW extW _ rfl rfl

/-- C6 counterexample: under the non-shuffle policy a primary-catalog
regeneration (`FolderSource::sort`, the same comparator `new` uses) orders
by plain byte-wise comparison of the source path and places the entry
containing "file10" before the one containing "file2", while the
numeric-aware natural comparison — which the claim asserts the primary
catalog uses — orders "file2" strictly first. -/
theorem primary_sort_is_not_natural :
    ((FolderSource.sort
        { current_list := [Media.new 0 "file2", Media.new 0 "file10"], current_index := 0 }
      ).current_list.map Media.source = ["file10", "file2"]) ∧
    natural_le "file2" "file10" = true ∧ natural_le "file10" "file2" = false := by
  decide

/-- C8: a `next()` call that does not regenerate never mutates the stored
catalog — the enrichment (probe, filter descriptor, begin timestamp) is
applied to a clone only, so every stored entry, its `source` and `index`
included, is identical before and after the call, and the call merely
advances the cursor. -/
theorem next_serving_leaves_catalog_unchanged (config : PlayoutConfig) (ext : Collab)
    (σ : ChannelState) (h : σ.current_index < σ.current_list.length) :
    (FolderSource.next config ext σ).2.current_list = σ.current_list ∧
    (FolderSource.next config ext σ).2.current_index = σ.current_index + 1 := by
  simp [FolderSource.next, dif_pos h]

/-- C8 witness at a concrete one-element catalog with cursor 0. -/
theorem next_serving_leaves_catalog_unchanged_witness :
    (0 : Nat) < ([Media.new 0 "a"] : List Media).length ∧
    (FolderSource.next cfgW extW
        { current_list := [Media.new 0 "a"], current_index := 0 }).2.current_list
      = [Media.new 0 "a"] :=
  ⟨by decide,
    (next_serving_leaves_catalog_unchanged cfgW extW
      { current_list := [Media.new 0 "a"], current_index := 0 } (by decide)).1⟩

/-- C9: `from_list` installs the caller's list into the channel state
verbatim — no reordering, no index reassignment, no cursor reset — so the
contiguous-index invariant and the cursor bound hold after `from_list`
exactly when the supplied list and the prior cursor already satisfied
them. -/
theorem from_list_installs_verbatim (σ : ChannelState) (l : List Media) :
    (FolderSource.from_list σ l).current_list = l ∧
    (FolderSource.from_list σ l).current_index = σ.current_index ∧
    ((FolderSource.from_list σ l).current_list.map Media.index
        = (List.range (FolderSource.from_list σ l).current_list.length).map some
      ↔ l.map Media.index = (List.range l.length).map some) ∧
    ((FolderSource.from_list σ l).current_index
        ≤ (FolderSource.from_list σ l).current_list.length
      ↔ σ.current_index ≤ l.length) :=
  ⟨rfl, rfl, Iff.rfl, Iff.rfl⟩

/-- C10: when the configured filler root is neither a directory nor a
file, `fill_filler_list` returns the empty list and leaves the supplied
cache's contents exactly as they were (the cache is overwritten only in
the directory and single-file branches). -/
theorem fill_filler_list_neither_keeps_cache (config : PlayoutConfig) (ext : Collab)
    (fillers : Option (List Media))
    (hdir : ext.is_dir config.storage.filler_path = false)
    (hfile : ext.is_file config.storage.filler_path = false) :
    fill_filler_list config ext fillers = ([], fillers, []) := by
  simp [fill_filler_list, hdir, hfile]

/-- C10 witness: with a cache handle holding one entry and a filler root
that is neither directory nor file, the cache contents survive unchanged. -/
theorem fill_filler_list_neither_keeps_cache_witness :
    fill_filler_list cfgW extNone (some [Media.new 0 "x"])
      = ([], some [Media.new 0 "x"], []) :=
  fill_filler_list_neither_keeps_cache cfgW extNone (some [Media.new 0 "x"]) rfl rfl

theorem keyLe_total (key : α → Nat × Nat) (xs ys : List α) :
    keyLe key xs ys = true ∨ keyLe key ys xs = true := by
  induction xs generalizing ys with
  | nil => left; rfl
  | cons a xs ih =>
    cases ys with
    | nil => right; rfl
    | cons b ys =>
      by_cases hab : key a = key b
      · have hba : key b = key a := hab.symm
        simp only [keyLe]
        rw [if_pos hab, if_pos hba]
        exact ih ys
      · have hba : ¬ key b = key a := fun e => hab e.symm
        simp only [keyLe, if_neg hab, if_neg hba, decide_eq_true_eq]
        have hne : ¬((key a).1 = (key b).1 ∧ (key a).2 = (key b).2) := by
          intro hc
          exact hab (Prod.ext hc.1 hc.2)
        omega

theorem keyLe_trans (key : α → Nat × Nat) (xs ys zs : List α)
    (h1 : keyLe key xs ys = true) (h2 : keyLe key ys zs = true) :
    keyLe key xs zs = true := by
  induction xs generalizing ys zs with
  | nil => rfl
  | cons a xs ih =>
    cases ys with
    | nil => simp [keyLe] at h1
    | cons b ys =>
      cases zs with
      | nil => simp [keyLe] at h2
      | cons c zs =>
        simp only [keyLe] at h1 h2 ⊢
        by_cases hab : key a = key b
        · rw [if_pos hab] at h1
          by_cases hbc : key b = key c
          · rw [if_pos hbc] at h2
            rw [if_pos (hab.trans hbc)]
            exact ih ys zs h1 h2
          · rw [if_neg hbc] at h2
            have hac : ¬ key a = key c := by rw [hab]; exact hbc
            rw [if_neg hac]
            rw [decide_eq_true_eq] at h2 ⊢
            rw [hab]
            exact h2
        · rw [if_neg hab, decide_eq_true_eq] at h1
          by_cases hbc : key b = key c
          · have hac : ¬ key a = key c := by rw [← hbc]; exact hab
            rw [if_neg hac, decide_eq_true_eq, ← hbc]
            exact h1
          · rw [if_neg hbc, decide_eq_true_eq] at h2
            have hac : ¬ key a = key c := by
              intro he
              rw [he] at h1
              omega
            rw [if_neg hac, decide_eq_true_eq]
            omega

theorem pairwise_orderedInsert (le : α → α → Bool)
    (htot : ∀ a b, le a b = true ∨ le b a = true)
    (htrans : ∀ a b c, le a b = true → le b c = true → le a c = true)
    (a : α) (l : List α) (hl : l.Pairwise fun x y => le x y = true) :
    (orderedInsert le a l).Pairwise fun x y => le x y = true := by
  induction l with
  | nil => simp [orderedInsert]
  | cons b l ih =>
    rcases List.pairwise_cons.mp hl with ⟨hb, hl'⟩
    by_cases hab : le a b = true
    · simp only [orderedInsert, hab, if_true]
      refine List.pairwise_cons.mpr ⟨?_, hl⟩
      intro x hx
      rcases List.mem_cons.mp hx with rfl | hx
      · exact hab
      · exact htrans a b x hab (hb x hx)
    · have hba : le b a = true := (htot a b).resolve_left hab
      have hf : le a b = false := by simpa using hab
      simp only [orderedInsert, hf, Bool.false_eq_true, if_false]
      refine List.pairwise_cons.mpr ⟨?_, ih hl'⟩
      intro x hx
      rcases (mem_orderedInsert le a x l).mp hx with rfl | hx
      · exact hba
      · exact hb x hx

theorem pairwise_sort_by (le : α → α → Bool)
    (htot : ∀ a b, le a b = true ∨ le b a = true)
    (htrans : ∀ a b c, le a b = true → le b c = true → le a c = true)
    (l : List α) :
    (sort_by le l).Pairwise fun x y => le x y = true := by
  induction l with
  | nil => simp [sort_by]
  | cons a l ih => exact pairwise_orderedInsert le htot htrans a (sort_by le l) ih

theorem leSource_total (d1 d2 : Media) : leSource d1 d2 = true ∨ leSource d2 d1 = true :=
  keyLe_total _ _ _

theorem leSource_trans (d1 d2 d3 : Media) (h1 : leSource d1 d2 = true)
    (h2 : leSource d2 d3 = true) : leSource d1 d3 = true :=
  keyLe_trans _ _ _ _ h1 h2

theorem leNatural_total (d1 d2 : Media) : leNatural d1 d2 = true ∨ leNatural d2 d1 = true :=
  keyLe_total _ _ _

theorem leNatural_trans (d1 d2 d3 : Media) (h1 : leNatural d1 d2 = true)
    (h2 : leNatural d2 d3 = true) : leNatural d1 d3 = true :=
  keyLe_trans _ _ _ _ h1 h2

theorem pairwise_source_reindex (P : String → String → Prop) (l : List Media)
    (h : (l.map Media.source).Pairwise P) :
    ((reindex l).map Media.source).Pairwise P := by
  rw [reindex, map_source_reindexFrom]
  exact h

/-- C6 amended: under the non-shuffle policy the filler catalog in
directory mode is ordered by the numeric-aware natural comparison of the
source path (so "file2" precedes "file10"), but the primary catalog — at
build and at every regeneration — is ordered by plain byte-wise
lexicographic comparison of the source path, under which "file10" precedes
"file2". -/
theorem primary_lex_filler_natural (config : PlayoutConfig) (ext : Collab)
    (σ : ChannelState) (fillers : Option (List Media))
    (hsh : config.storage.shuffle = false) :
    (((FolderSource.sort σ).current_list.map Media.source).Pairwise
        fun a b => lexLe a.data b.data = true) ∧
    (((FolderSource.new config ext σ).1.current_list.map Media.source).Pairwise
        fun a b => lexLe a.data b.data = true) ∧
    (((fill_filler_list config ext fillers).1.map Media.source).Pairwise
        fun a b => natural_le a b = true) ∧
    lexLe "file10".data "file2".data = true ∧
    natural_le "file2" "file10" = true := by
  refine ⟨?_, ?_, ?_, by decide, by decide⟩
  · simp only [FolderSource.sort]
    apply pairwise_source_reindex
    refine List.pairwise_map.mpr ?_
    exact pairwise_sort_by leSource leSource_total leSource_trans σ.current_list
  · simp only [FolderSource.new, hsh, Bool.false_eq_true, if_false]
    apply pairwise_source_reindex
    refine List.pairwise_map.mpr ?_
    exact pairwise_sort_by leSource leSource_total leSource_trans _
  · by_cases hdir : ext.is_dir config.storage.filler_path = true
    · simp only [fill_filler_list, hdir, if_true, hsh, Bool.false_eq_true, if_false]
      apply pairwise_source_reindex
      refine List.pairwise_map.mpr ?_
      exact pairwise_sort_by leNatural leNatural_total leNatural_trans _
    · have hdir' : ext.is_dir config.storage.filler_path = false := by simpa using hdir
      by_cases hfile : ext.is_file config.storage.filler_path = true
      · simp only [fill_filler_list, hdir', Bool.false_eq_true, if_false, hfile, if_true]
        simp
      · have hfile' : ext.is_file config.storage.filler_path = false := by simpa using hfile
        simp [fill_filler_list, hdir', hfile']

/-- C6 amended witness at a concrete non-shuffle configuration: the
primary order places "file10" first, the natural order places "file2"
first. -/
theorem primary_lex_filler_natural_witness :
    lexLe "file10".data "file2".data = true ∧
    natural_le "file2" "file10" = true :=
  (primary_lex_filler_natural cfgW extW
    { current_list := [], current_index := 0 } none rfl).2.2.2

/-- C5: during the primary build, a root that does not exist or is not a
directory is reported (`pathNotExists`) and contributes no entries — its
walk fails immediately, so the `while let Some(Ok(..))` loop consumes
nothing — while every remaining root still contributes its qualifying
files; zero qualifying files across all roots is reported (`noPlayable`)
and yields an empty, still-installed catalog. The build is a total
function of its inputs, so neither condition aborts it. -/
theorem new_bad_root_skipped (config : PlayoutConfig) (ext : Collab)
    (σ : ChannelState) (bad good : String)
    (hp : path_list_of config = [bad, good])
    (hsh : config.storage.shuffle = false)
    (hbaddir : ext.is_dir bad = false)
    (hbadwalk : okEntries (ext.walk bad) = []) :
    (FolderSource.new config ext σ).1.current_list
        = reindex (sort_by leSource ((qualifying ext good).map fun p => Media.new 0 p)) ∧
    LogEvent.pathNotExists bad ∈ (FolderSource.new config ext σ).2 ∧
    (qualifying ext good = [] →
      (FolderSource.new config ext σ).1.current_list = [] ∧
      LogEvent.noPlayable [bad, good] ∈ (FolderSource.new config ext σ).2) := by
  have hqbad : qualifying ext bad = [] := by
    simp [qualifying, hbadwalk]
  simp only [FolderSource.new, hp, List.foldl, hqbad, hbaddir, hsh, Bool.false_eq_true,
    if_false, List.map_nil, List.nil_append, List.append_nil]
  refine ⟨trivial, ?_, ?_⟩
  · split <;> split <;> simp
  · intro h
    rw [h]
    refine ⟨rfl, ?_⟩
    rw [if_pos (by simp)]
    split <;> simp

/-- C5 witness: with roots "/missing" (walk fails at once) and "/good"
(one playable file), the missing root is reported while the build
completes. -/
theorem new_bad_root_skipped_witness :
    LogEvent.pathNotExists "/missing"
      ∈ (FolderSource.new cfg5 ext5 { current_list := [], current_index := 0 }).2 :=
  (new_bad_root_skipped cfg5 ext5 { current_list := [], current_index := 0 }
    "/missing" "/good" rfl rfl rfl rfl).2.1

theorem buildFiller_cons (ext : Collab) (eager : Bool) (i : Nat) (p : String)
    (rest : List String) :
    (buildFiller ext eager i (p :: rest)).1
      = (if eager then ((Media.new i p).add_probe ext.probe).1 else Media.new i p)
          :: (buildFiller ext eager (i + 1) rest).1 := by
  simp only [buildFiller]
  by_cases he : eager = true
  · simp only [he, if_true]
    cases hp : (Media.new i p).add_probe ext.probe with
    | mk m' r =>
      cases r <;> simp [hp]
  · have he' : eager = false := by simpa using he
    simp [he']

theorem buildFiller_probe (ext : Collab) (eager : Bool) (i : Nat) (ps : List String)
    (m : Media) (hm : m ∈ (buildFiller ext eager i ps).1) :
    m.probe = (if eager then (ext.probe m.source).toOption else none) := by
  induction ps generalizing i with
  | nil => simp [buildFiller] at hm
  | cons p rest ih =>
    rw [buildFiller_cons] at hm
    rcases List.mem_cons.mp hm with h | h
    · subst h
      by_cases he : eager = true
      · simp only [he, if_true]
        rw [add_probe_source]
        exact add_probe_probe ext.probe (Media.new i p) rfl
      · have he' : eager = false := by simpa using he
        simp only [he', Bool.false_eq_true, if_false]
        rfl
    · exact ih (i + 1) h

/-- C7: `fill_filler_list` probes technical metadata eagerly for every
entry exactly when no external cache handle is supplied; when a cache
handle is supplied, per-entry probing is skipped and, besides returning
the list, the builder's side effect is replacing the cache's contents with
the newly built list. -/
theorem fill_filler_eager_probe_iff_no_cache (config : PlayoutConfig) (ext : Collab)
    (hperm : ∀ xs : List Media, (ext.rng_shuffle xs).Perm xs)
    (hroot : ext.is_dir config.storage.filler_path = true
      ∨ ext.is_file config.storage.filler_path = true) :
    (∀ m ∈ (fill_filler_list config ext none).1,
        m.probe = (ext.probe m.source).toOption) ∧
    (∀ c : List Media,
      (∀ m ∈ (fill_filler_list config ext (some c)).1, m.probe = none) ∧
      (fill_filler_list config ext (some c)).2.1
        = some (fill_filler_list config ext (some c)).1) := by
  have memlem : ∀ (fl : Option (List Media)) (m : Media),
      ext.is_dir config.storage.filler_path = true →
      m ∈ (fill_filler_list config ext fl).1 →
      ∃ y ∈ (buildFiller ext fl.isNone 0 (qualifying ext config.storage.filler_path)).1,
        m.probe = y.probe ∧ m.source = y.source := by
    intro fl m hdir hm
    simp only [fill_filler_list, hdir, if_true] at hm
    by_cases hsh : config.storage.shuffle = true
    · simp only [hsh, if_true] at hm
      obtain ⟨y, hy, h1, h2⟩ := mem_reindexFrom m 0 _ hm
      exact ⟨y, ((hperm _).mem_iff).mp hy, h1, h2⟩
    · have hs : config.storage.shuffle = false := by simpa using hsh
      simp only [hs, Bool.false_eq_true, if_false] at hm
      obtain ⟨y, hy, h1, h2⟩ := mem_reindexFrom m 0 _ hm
      exact ⟨y, (mem_sort_by leNatural y _).mp hy, h1, h2⟩
  constructor
  · intro m hm
    by_cases hdir : ext.is_dir config.storage.filler_path = true
    · obtain ⟨y, hy, h1, h2⟩ := memlem none m hdir hm
      have hp := buildFiller_probe ext (Option.isNone (none : Option (List Media))) 0 _ y hy
      rw [h1, h2]
      simpa using hp
    · have hdir' : ext.is_dir config.storage.filler_path = false := by simpa using hdir
      have hfile : ext.is_file config.storage.filler_path = true :=
        hroot.resolve_left (by simpa using hdir)
      simp only [fill_filler_list, hdir', Bool.false_eq_true, if_false, hfile, if_true,
        Option.isNone_none] at hm
      cases hp : (Media.new 0 config.storage.filler_path).add_probe ext.probe with
      | mk m' r =>
        cases r with
        | ok u =>
          simp only [hp, if_true, List.mem_singleton] at hm
          subst hm
          have h1 := add_probe_probe ext.probe (Media.new 0 config.storage.filler_path) rfl
          have h2 := add_probe_source ext.probe (Media.new 0 config.storage.filler_path)
          rw [hp] at h1 h2
          rw [h2, h1]
        | error e =>
          simp only [hp, if_true, List.mem_singleton] at hm
          subst hm
          have h1 := add_probe_probe ext.probe (Media.new 0 config.storage.filler_path) rfl
          have h2 := add_probe_source ext.probe (Media.new 0 config.storage.filler_path)
          rw [hp] at h1 h2
          rw [h2, h1]
  · intro c
    constructor
    · intro m hm
      by_cases hdir : ext.is_dir config.storage.filler_path = true
      · obtain ⟨y, hy, h1, h2⟩ := memlem (some c) m hdir hm
        have hp := buildFiller_probe ext (Option.isNone (some c)) 0 _ y hy
        rw [h1]
        simpa using hp
      · have hdir' : ext.is_dir config.storage.filler_path = false := by simpa using hdir
        have hfile : ext.is_file config.storage.filler_path = true :=
          hroot.resolve_left (by simpa using hdir)
        simp only [fill_filler_list, hdir', Bool.false_eq_true, if_false, hfile, if_true,
          Option.isNone_some, List.mem_singleton] at hm
        subst hm
        rfl
    · by_cases hdir : ext.is_dir config.storage.filler_path = true
      · simp [fill_filler_list, hdir]
      · have hdir' : ext.is_dir config.storage.filler_path = false := by simpa using hdir
        have hfile : ext.is_file config.storage.filler_path = true :=
          hroot.resolve_left (by simpa using hdir)
        simp [fill_filler_list, hdir', hfile]

/-- C7 witness: with a single-file filler root and a supplied (empty)
cache, the cache afterwards holds exactly the newly built list. -/
theorem fill_filler_eager_probe_iff_no_cache_witness :
    (fill_filler_list cfgW extW (some [])).2.1
      = some (fill_filler_list cfgW extW (some [])).1 :=
  ((fill_filler_eager_probe_iff_no_cache cfgW extW
      (fun xs => List.Perm.refl xs) (Or.inr rfl)).2 []).2

theorem mod_step (L i : Nat) (hL : 0 < L) (hi : 0 < i) :
    i % L = if (i - 1) % L + 1 = L then 0 else (i - 1) % L + 1 := by
  have heq : ((i - 1) % L + 1) % L = i % L := by
    rw [Nat.mod_add_mod, Nat.sub_add_cancel hi]
  by_cases hc : (i - 1) % L + 1 = L
  · rw [if_pos hc]
    rw [hc] at heq
    rw [← heq, Nat.mod_self]
  · rw [if_neg hc]
    have hlt : (i - 1) % L < L := Nat.mod_lt _ hL
    have hlt2 : (i - 1) % L + 1 < L := by omega
    rw [← heq, Nat.mod_eq_of_lt hlt2]

theorem next_serving (config : PlayoutConfig) (ext : Collab) (σ : ChannelState)
    (h : σ.current_index < σ.current_list.length) :
    FolderSource.next config ext σ
      = (some (enrich config ext (σ.current_list.get ⟨σ.current_index, h⟩)),
         { σ with current_index := σ.current_index + 1 }) := by
  simp only [FolderSource.next, dif_pos h]

theorem next_regen_cons (config : PlayoutConfig) (ext : Collab) (σ : ChannelState)
    (h : ¬ σ.current_index < σ.current_list.length)
    (m0 : Media) (rest : List Media)
    (hq : (if config.storage.shuffle then ext.rng_shuffle σ.current_list
           else sort_by leSource σ.current_list) = m0 :: rest) :
    FolderSource.next config ext σ
      = (some (enrich config ext { m0 with index := some 0 }),
         { current_list := reindex (m0 :: rest), current_index := 1 }) := by
  by_cases hsh : config.storage.shuffle = true
  · rw [hsh, if_pos rfl] at hq
    simp only [FolderSource.next, dif_neg h, hsh, if_true, FolderSource.shuffle, hq]
    rfl
  · have hs : config.storage.shuffle = false := by simpa using hsh
    simp only [hs, Bool.false_eq_true, if_false] at hq
    simp only [FolderSource.next, dif_neg h, hs, Bool.false_eq_true, if_false,
      FolderSource.sort, hq]
    rfl

theorem stateAfter_spec (config : PlayoutConfig) (ext : Collab) (l : List Media) (L : Nat)
    (hL : 0 < L) (hlen : l.length = L)
    (hsh : ∀ xs : List Media, (ext.rng_shuffle xs).length = xs.length) (i : Nat) :
    (stateAfter config ext ⟨reindex l, 0⟩ i).current_list.length = L ∧
    (∀ j (hj : j < (stateAfter config ext ⟨reindex l, 0⟩ i).current_list.length),
        ((stateAfter config ext ⟨reindex l, 0⟩ i).current_list.get ⟨j, hj⟩).index = some j) ∧
    (stateAfter config ext ⟨reindex l, 0⟩ i).current_index
      = if i = 0 then 0 else (i - 1) % L + 1 := by
  induction i with
  | zero =>
    refine ⟨?_, ?_, rfl⟩
    · show (reindexFrom 0 l).length = L
      rw [reindexFrom_length, hlen]
    · intro j hj
      show ((reindexFrom 0 l).get ⟨j, hj⟩).index = some j
      simpa using get_reindexFrom l 0 j hj
  | succ i ih =>
    obtain ⟨hlen', hidx, hcur⟩ := ih
    set σ := stateAfter config ext ⟨reindex l, 0⟩ i with hσdef
    have hstep : stateAfter config ext ⟨reindex l, 0⟩ (i + 1)
        = (FolderSource.next config ext σ).2 := rfl
    by_cases h : σ.current_index < σ.current_list.length
    · rw [hstep, next_serving config ext σ h]
      refine ⟨hlen', hidx, ?_⟩
      show σ.current_index + 1 = if i + 1 = 0 then 0 else (i + 1 - 1) % L + 1
      by_cases hi : i = 0
      · subst hi
        rw [hcur]
        simp
      · have hlt0 : (i - 1) % L < L := Nat.mod_lt _ hL
        set r := (i - 1) % L with hr
        rw [hcur, if_neg hi]
        rw [if_neg (show ¬ i + 1 = 0 by omega)]
        rw [show i + 1 - 1 = i from by omega]
        rw [hcur, if_neg hi, hlen'] at h
        have hms := mod_step L i hL (by omega)
        rw [← hr, if_neg (by omega)] at hms
        rw [hms]
    · have hipos : 0 < i := by
        by_contra hc
        push_neg at hc
        have hi0 : i = 0 := by omega
        apply h
        rw [hcur, if_pos hi0, hlen']
        exact hL
      have hne : ¬ i = 0 := by omega
      have hlt0 : (i - 1) % L < L := Nat.mod_lt _ hL
      set r := (i - 1) % L with hr
      rw [hcur, if_neg hne, hlen'] at h
      have hrL : r + 1 = L := by omega
      have hmod0 : i % L = 0 := by
        have hms := mod_step L i hL hipos
        rw [← hr, if_pos hrL] at hms
        exact hms
      set q := (if config.storage.shuffle then ext.rng_shuffle σ.current_list
                else sort_by leSource σ.current_list) with hqdef
      have hqlen : q.length = L := by
        rw [hqdef]
        by_cases hs : config.storage.shuffle = true
        · rw [if_pos hs, hsh, hlen']
        · rw [if_neg hs, sort_by_length, hlen']
      obtain ⟨m0, rest, hcons⟩ := List.exists_cons_of_ne_nil
        (show q ≠ [] from by
          intro hq0
          rw [hq0] at hqlen
          simp at hqlen
          omega)
      have hnot : ¬ σ.current_index < σ.current_list.length := by
        rw [hcur, if_neg hne, hlen']
        omega
      rw [hstep, next_regen_cons config ext σ hnot m0 rest (by rw [← hqdef]; exact hcons)]
      refine ⟨?_, ?_, ?_⟩
      · show (reindexFrom 0 (m0 :: rest)).length = L
        rw [reindexFrom_length, ← hcons, hqlen]
      · intro j hj
        show ((reindexFrom 0 (m0 :: rest)).get ⟨j, hj⟩).index = some j
        simpa using get_reindexFrom (m0 :: rest) 0 j hj
      · show (1 : Nat) = if i + 1 = 0 then 0 else (i + 1 - 1) % L + 1
        rw [if_neg (show ¬ i + 1 = 0 by omega)]
        rw [show i + 1 - 1 = i from by omega]
        rw [hmod0]

/-- C2: for sequential `next()` calls on a channel whose catalog was just
built (contiguous indices, cursor 0) with stable length L > 0 and no
concurrent reload, the `i`-th returned item carries index `i % L`, and the
regeneration (reorder + reindex + cursor reset) happens at call `i`
exactly when `i` is a positive multiple of L — once per full cycle of L
calls. -/
theorem next_serves_mod_cycle (config : PlayoutConfig) (ext : Collab)
    (l : List Media) (L : Nat) (hL : 0 < L) (hlen : l.length = L)
    (hsh : ∀ xs : List Media, (ext.rng_shuffle xs).length = xs.length) (i : Nat) :
    (∃ m, outAt config ext ⟨reindex l, 0⟩ i = some m ∧ m.index = some (i % L)) ∧
    (regenAt config ext ⟨reindex l, 0⟩ i ↔ (i ≠ 0 ∧ i % L = 0)) := by
  obtain ⟨hlen', hidx, hcur⟩ := stateAfter_spec config ext l L hL hlen hsh i
  set σ := stateAfter config ext ⟨reindex l, 0⟩ i with hσdef
  by_cases h : σ.current_index < σ.current_list.length
  · have hval : σ.current_index = i % L := by
      by_cases hi : i = 0
      · subst hi
        rw [hcur]
        simp
      · have hlt0 : (i - 1) % L < L := Nat.mod_lt _ hL
        set r := (i - 1) % L with hr
        rw [hcur, if_neg hi]
        rw [hcur, if_neg hi, hlen'] at h
        have hms := mod_step L i hL (by omega)
        rw [← hr, if_neg (by omega)] at hms
        rw [hms]
    constructor
    · refine ⟨enrich config ext (σ.current_list.get ⟨σ.current_index, h⟩), ?_, ?_⟩
      · show (FolderSource.next config ext σ).1 = _
        rw [next_serving config ext σ h]
      · rw [enrich_index, hidx σ.current_index h, hval]
    · constructor
      · intro habs
        exact absurd h (not_lt.mpr habs)
      · rintro ⟨hne, hmod⟩
        exfalso
        have hlt0 : (i - 1) % L < L := Nat.mod_lt _ hL
        rw [hcur, if_neg hne, hlen'] at h
        have hms := mod_step L i hL (by omega)
        rw [if_neg (by omega)] at hms
        omega
  · have hipos : 0 < i := by
      by_contra hc
      push_neg at hc
      have hi0 : i = 0 := by omega
      apply h
      rw [hcur, if_pos hi0, hlen']
      exact hL
    have hne : ¬ i = 0 := by omega
    have hlt0 : (i - 1) % L < L := Nat.mod_lt _ hL
    set r := (i - 1) % L with hr
    rw [hcur, if_neg hne, hlen'] at h
    have hrL : r + 1 = L := by omega
    have hmod0 : i % L = 0 := by
      have hms := mod_step L i hL hipos
      rw [← hr, if_pos hrL] at hms
      exact hms
    set q := (if config.storage.shuffle then ext.rng_shuffle σ.current_list
              else sort_by leSource σ.current_list) with hqdef
    have hqlen : q.length = L := by
      rw [hqdef]
      by_cases hs : config.storage.shuffle = true
      · rw [if_pos hs, hsh, hlen']
      · rw [if_neg hs, sort_by_length, hlen']
    obtain ⟨m0, rest, hcons⟩ := List.exists_cons_of_ne_nil
      (show q ≠ [] from by
        intro hq0
        rw [hq0] at hqlen
        simp at hqlen
        omega)
    have hnot : ¬ σ.current_index < σ.current_list.length := by
      rw [hcur, if_neg hne, hlen']
      omega
    constructor
    · refine ⟨enrich config ext { m0 with index := some 0 }, ?_, ?_⟩
      · show (FolderSource.next config ext σ).1 = _
        rw [next_regen_cons config ext σ hnot m0 rest (by rw [← hqdef]; exact hcons)]
      · rw [enrich_index, hmod0]
    · constructor
      · intro _
        exact ⟨hne, hmod0⟩
      · intro _
        show σ.current_list.length ≤ σ.current_index
        rw [hcur, if_neg hne, hlen']
        omega

/-- C2 witness at L = 1, i = 1: the second call regenerates and returns
the item with index 0 = 1 % 1. -/
theorem next_serves_mod_cycle_witness :
    (∃ m, outAt cfgW extW ⟨reindex [Media.new 0 "a"], 0⟩ 1 = some m ∧
        m.index = some (1 % 1)) ∧
    (regenAt cfgW extW ⟨reindex [Media.new 0 "a"], 0⟩ 1 ↔ ((1 : Nat) ≠ 0 ∧ 1 % 1 = 0)) :=
  next_serves_mod_cycle cfgW extW [Media.new 0 "a"] 1 (by decide) rfl (fun xs => rfl) 1
